import Mathlib

/-!
Verification of the fog/cloud task-scheduling core of the
swe-fog-latency-optimization repository.

The scheduling core lives in the Flask backend (backend/app.py), whose
behaviour is documented throughout the repository (the priority-scheduling
implementation notes, PROJECT_STATUS.md, CLEANUP_CHECKLIST.md) and specified
in spec.md.  The backend source file itself is not part of the source tree
given here, so the core operations are modelled from the specification and
the repository documents, as noted on each definition.  The frontend lookup
of device priorities (frontend/src/components/IoTDevices.jsx) and the
Firebase-prototype offloading decision (client/src/services/api.ts) are
translated directly from their sources.
-/

namespace FogSim

/-- Task priority labels, as used throughout the repository
(HIGH / MODERATE / LOW). -/
inductive Priority where
  | HIGH
  | MODERATE
  | LOW
deriving DecidableEq, Repr

/-- Priority weight used by the fog queue sort key:
HIGH = 3, MODERATE = 2, LOW = 1. -/
def Priority.weight : Priority → Nat
  | .HIGH => 3
  | .MODERATE => 2
  | .LOW => 1

/-- Task lifecycle states. -/
inductive Status where
  | QUEUED
  | PROCESSING
  | COMPLETED
  | FAILED
deriving DecidableEq, Repr

/-- Destination tier of a routed task. -/
inductive Node where
  | fog
  | cloud
deriving DecidableEq, Repr

/-- A task record: id, priority, complexity, arrival time and lifecycle
status.  Complexity and arrival time are numeric (modelled as rationals);
the id is a natural number. -/
structure Task where
  id : Nat
  priority : Priority
  complexity : ℚ
  arrival : ℚ
  status : Status
deriving DecidableEq, Repr

/-- Modelled from the spec: the Router of backend/app.py (missing from the
source tree) routes each task on its priority alone — HIGH goes to the fog
queue, MODERATE and LOW go to the cloud queue. -/
def routeTask (t : Task) : Node :=
  match t.priority with
  | .HIGH => .fog
  | .MODERATE => .cloud
  | .LOW => .cloud

/-- Modelled from the spec: the fog queue sort key of backend/app.py
(missing from the source tree), the composite tuple
(-priority_weight, arrival_time, complexity, id) compared
lexicographically.  The scheduling notes in the repository list the first
three components; the spec records the task id as the final deterministic
tie-break. -/
def sortKey (t : Task) : ℤ ×ₗ ℚ ×ₗ ℚ ×ₗ ℕ :=
  toLex (-(t.priority.weight : ℤ), toLex (t.arrival, toLex (t.complexity, t.id)))

/-- Strict comparison of fog-queue sort keys. -/
def keyLt (a b : Task) : Prop :=
  sortKey a < sortKey b

instance (a b : Task) : Decidable (keyLt a b) := by
  unfold keyLt
  infer_instance

/-- Modelled from the spec: pop_highest of the fog priority queue in
backend/app.py (missing from the source tree).  Returns a task with the
least sort key together with the remaining queue, or none when the queue
is empty. -/
def popHighest : List Task → Option (Task × List Task)
  | [] => none
  | t :: ts =>
    match popHighest ts with
    | none => some (t, [])
    | some (m, rest) => if keyLt m t then some (m, t :: rest) else some (t, ts)

theorem popHighest_eq_none {l : List Task} : popHighest l = none ↔ l = [] := by
  cases l with
  | nil => simp [popHighest]
  | cons t ts =>
    simp only [popHighest]
    cases h : popHighest ts with
    | none => simp
    | some p =>
      obtain ⟨m, rest⟩ := p
      by_cases hlt : keyLt m t <;> simp [hlt]

theorem popHighest_perm {l : List Task} {m : Task} {rest : List Task}
    (h : popHighest l = some (m, rest)) : l.Perm (m :: rest) := by
  induction l generalizing m rest with
  | nil => simp [popHighest] at h
  | cons t ts ih =>
    simp only [popHighest] at h
    cases hts : popHighest ts with
    | none =>
      rw [hts] at h
      simp only [Option.some.injEq, Prod.mk.injEq] at h
      obtain ⟨rfl, rfl⟩ := h
      rw [popHighest_eq_none.mp hts]
    | some p =>
      obtain ⟨m₀, r₀⟩ := p
      rw [hts] at h
      by_cases hlt : keyLt m₀ t
      · simp only [hlt, if_true, Option.some.injEq, Prod.mk.injEq] at h
        obtain ⟨rfl, rfl⟩ := h
        have hp : ts.Perm (m₀ :: r₀) := ih hts
        exact (hp.cons t).trans (List.Perm.swap m₀ t r₀)
      · simp only [hlt, if_false, Option.some.injEq, Prod.mk.injEq] at h
        obtain ⟨rfl, rfl⟩ := h
        exact List.Perm.refl _

theorem popHighest_min {l : List Task} {m : Task} {rest : List Task}
    (h : popHighest l = some (m, rest)) :
    ∀ b ∈ l, sortKey m ≤ sortKey b := by
  induction l generalizing m rest with
  | nil => simp [popHighest] at h
  | cons t ts ih =>
    simp only [popHighest] at h
    cases hts : popHighest ts with
    | none =>
      rw [hts] at h
      simp only [Option.some.injEq, Prod.mk.injEq] at h
      obtain ⟨rfl, rfl⟩ := h
      intro b hb
      rcases List.mem_cons.mp hb with rfl | hb
      · exact le_refl _
      · rw [popHighest_eq_none.mp hts] at hb
        simp at hb
    | some p =>
      obtain ⟨m₀, r₀⟩ := p
      rw [hts] at h
      by_cases hlt : keyLt m₀ t
      · simp only [hlt, if_true, Option.some.injEq, Prod.mk.injEq] at h
        obtain ⟨rfl, rfl⟩ := h
        intro b hb
        rcases List.mem_cons.mp hb with rfl | hb
        · exact le_of_lt hlt
        · exact ih hts b hb
      · simp only [hlt, if_false, Option.some.injEq, Prod.mk.injEq] at h
        obtain ⟨rfl, rfl⟩ := h
        intro b hb
        rcases List.mem_cons.mp hb with rfl | hb
        · exact le_refl _
        · exact le_trans (not_lt.mp hlt) (ih hts b hb)

theorem popHighest_mem {l : List Task} {m : Task} {rest : List Task}
    (h : popHighest l = some (m, rest)) : m ∈ l :=
  (popHighest_perm h).mem_iff.mpr (List.mem_cons_self m rest)

/-- Unfolding of the lexicographic sort-key comparison into the four
explicit key levels. -/
theorem keyLt_iff (a b : Task) :
    keyLt a b ↔
      (-(a.priority.weight : ℤ) < -(b.priority.weight : ℤ) ∨
        (-(a.priority.weight : ℤ) = -(b.priority.weight : ℤ) ∧
          (a.arrival < b.arrival ∨
            (a.arrival = b.arrival ∧
              (a.complexity < b.complexity ∨
                (a.complexity = b.complexity ∧ a.id < b.id)))))) := by
  unfold keyLt sortKey
  rw [Prod.Lex.lt_iff]
  constructor
  · rintro (h | ⟨h1, h2⟩)
    · exact Or.inl h
    · refine Or.inr ⟨h1, ?_⟩
      rw [Prod.Lex.lt_iff] at h2
      rcases h2 with h2 | ⟨h2a, h2b⟩
      · exact Or.inl h2
      · refine Or.inr ⟨h2a, ?_⟩
        rw [Prod.Lex.lt_iff] at h2b
        exact h2b
  · rintro (h | ⟨h1, h2⟩)
    · exact Or.inl h
    · refine Or.inr ⟨h1, ?_⟩
      rw [Prod.Lex.lt_iff]
      rcases h2 with h2 | ⟨h2a, h2b⟩
      · exact Or.inl h2
      · refine Or.inr ⟨h2a, ?_⟩
        rw [Prod.Lex.lt_iff]
        exact h2b

/-! ### Cloud FIFO queue -/

/-- Modelled from the spec: the cloud queue of backend/app.py (missing from
the source tree) is a plain FIFO list; push appends at the back. -/
def pushCloud (q : List Task) (t : Task) : List Task := q ++ [t]

/-- Modelled from the spec: pop_front of the cloud FIFO queue in
backend/app.py (missing from the source tree): removes and returns the
oldest task, or none when the queue is empty. -/
def popFront : List Task → Option (Task × List Task)
  | [] => none
  | t :: ts => some (t, ts)

theorem popFront_eq_some {q : List Task} {t : Task} {ts : List Task}
    (h : popFront q = some (t, ts)) : q = t :: ts := by
  cases q with
  | nil => simp [popFront] at h
  | cons a as =>
    simp only [popFront, Option.some.injEq, Prod.mk.injEq] at h
    obtain ⟨rfl, rfl⟩ := h
    rfl

/-- The sequence of tasks obtained by repeatedly applying popFront until
the cloud queue is empty. -/
def drainCloud (q : List Task) : List Task :=
  match hq : popFront q with
  | none => []
  | some (t, ts) => t :: drainCloud ts
termination_by q.length
decreasing_by
  rw [popFront_eq_some hq]
  simp

theorem drainCloud_eq (q : List Task) : drainCloud q = q := by
  induction q with
  | nil => simp [drainCloud, popFront]
  | cons t ts ih =>
    rw [drainCloud]
    simp only [popFront]
    rw [ih]

/-! ### Latency model -/

/-- Modelled from the spec: default fog latency lower bound in
milliseconds, from the repository's processing-flow notes
(fog latency drawn from about 30 to 50 ms). -/
def fogLatencyMin : ℚ := 30

/-- Modelled from the spec: default fog latency upper bound (ms). -/
def fogLatencyMax : ℚ := 50

/-- Modelled from the spec: default cloud latency lower bound in
milliseconds (cloud latency drawn from about 120 to 150 ms). -/
def cloudLatencyMin : ℚ := 120

/-- Modelled from the spec: default cloud latency upper bound (ms). -/
def cloudLatencyMax : ℚ := 150

/-- Modelled from the spec: the range the Dispatcher of backend/app.py
(missing from the source tree) draws a completion latency from, per node,
under the default configuration constants: every possible jitter draw lands
inside the node's closed interval. -/
def inLatencyRange (n : Node) (x : ℚ) : Prop :=
  match n with
  | .fog => fogLatencyMin ≤ x ∧ x ≤ fogLatencyMax
  | .cloud => cloudLatencyMin ≤ x ∧ x ≤ cloudLatencyMax

/-- The p-th percentile of a sample list, taken as the order statistic at
index p * length / 100 of the ascending sort. -/
def percentile (p : ℕ) (xs : List ℚ) : ℚ :=
  (List.insertionSort (· ≤ ·) xs).getD (p * xs.length / 100) 0

theorem percentile_mem {p : ℕ} {xs : List ℚ} (hne : xs ≠ [])
    (hp : p < 100) : percentile p xs ∈ xs := by
  have hlen : 0 < xs.length := List.length_pos.mpr hne
  have hidx : p * xs.length / 100 < (List.insertionSort (· ≤ ·) xs).length := by
    rw [List.length_insertionSort]
    exact Nat.div_lt_of_lt_mul ((Nat.mul_lt_mul_right hlen).mpr hp)
  rw [percentile, List.getD_eq_getElem _ _ hidx]
  have : (List.insertionSort (· ≤ ·) xs)[p * xs.length / 100] ∈
      List.insertionSort (· ≤ ·) xs := List.getElem_mem hidx
  exact (List.mem_insertionSort (· ≤ ·)).mp this

/-! ### Simulation state and its operations -/

/-- Modelled from the spec: the shared simulation state of backend/app.py
(missing from the source tree): the fog priority queue, the cloud FIFO
queue, the currently processing tasks, the finished tasks, the three
counters, and the running flag. -/
structure SimulationState where
  running : Bool
  pending_fog_tasks : List Task
  cloud_tasks : List Task
  active_tasks : List Task
  done_tasks : List Task
  tasks_generated : Nat
  tasks_processed : Nat
  tasks_failed : Nat
deriving DecidableEq, Repr

/-- The freshly initialized simulation state. -/
def initState : SimulationState :=
  { running := true
    pending_fog_tasks := []
    cloud_tasks := []
    active_tasks := []
    done_tasks := []
    tasks_generated := 0
    tasks_processed := 0
    tasks_failed := 0 }

/-- All task records held anywhere in the state. -/
def allTasks (s : SimulationState) : List Task :=
  s.pending_fog_tasks ++ s.cloud_tasks ++ s.active_tasks ++ s.done_tasks

/-- Modelled from the spec: task generation in backend/app.py (missing
from the source tree).  A new task enters with status QUEUED, is routed on
its priority into the fog or cloud queue, and the generated counter is
incremented. -/
def generateTask (s : SimulationState) (t : Task) : SimulationState :=
  let t' : Task := { t with status := .QUEUED }
  match routeTask t' with
  | .fog =>
    { s with
      pending_fog_tasks := s.pending_fog_tasks ++ [t']
      tasks_generated := s.tasks_generated + 1 }
  | .cloud =>
    { s with
      cloud_tasks := s.cloud_tasks ++ [t']
      tasks_generated := s.tasks_generated + 1 }

/-- Modelled from the spec: fog dispatch in backend/app.py (missing from
the source tree).  Pops the highest-priority fog task, marks it
PROCESSING and moves it to the active set; a no-op on an empty queue. -/
def dispatchFog (s : SimulationState) : SimulationState :=
  match popHighest s.pending_fog_tasks with
  | none => s
  | some (t, rest) =>
    { s with
      pending_fog_tasks := rest
      active_tasks := s.active_tasks ++ [{ t with status := .PROCESSING }] }

/-- Modelled from the spec: cloud dispatch in backend/app.py (missing from
the source tree).  Pops the front of the cloud FIFO queue, marks it
PROCESSING and moves it to the active set; a no-op on an empty queue. -/
def dispatchCloud (s : SimulationState) : SimulationState :=
  match popFront s.cloud_tasks with
  | none => s
  | some (t, rest) =>
    { s with
      cloud_tasks := rest
      active_tasks := s.active_tasks ++ [{ t with status := .PROCESSING }] }

/-- Modelled from the spec: successful completion in backend/app.py
(missing from the source tree).  The first active task finishes with
status COMPLETED and the processed counter is incremented. -/
def completeTask (s : SimulationState) : SimulationState :=
  match s.active_tasks with
  | [] => s
  | t :: rest =>
    { s with
      active_tasks := rest
      done_tasks := s.done_tasks ++ [{ t with status := .COMPLETED }]
      tasks_processed := s.tasks_processed + 1 }

/-- Modelled from the spec: the failure draw in backend/app.py (missing
from the source tree).  The first active task finishes with status FAILED
and the failure counter is incremented. -/
def failTask (s : SimulationState) : SimulationState :=
  match s.active_tasks with
  | [] => s
  | t :: rest =>
    { s with
      active_tasks := rest
      done_tasks := s.done_tasks ++ [{ t with status := .FAILED }]
      tasks_failed := s.tasks_failed + 1 }

/-- Modelled from the spec: the Stop operation of backend/app.py (missing
from the source tree, called by stopSimulation in
frontend/src/hooks/useConfig.js).  It only clears the running flag; every
queue and metric is left untouched. -/
def stopSim (s : SimulationState) : SimulationState :=
  { s with running := false }

/-- One step of the simulation core: task generation (with a fresh id),
fog or cloud dispatch, completion, failure, or stop. -/
inductive Step : SimulationState → SimulationState → Prop where
  | gen (s : SimulationState) (t : Task)
      (hfresh : ∀ u ∈ allTasks s, u.id ≠ t.id) :
      Step s (generateTask s t)
  | dfog (s : SimulationState) : Step s (dispatchFog s)
  | dcloud (s : SimulationState) : Step s (dispatchCloud s)
  | comp (s : SimulationState) : Step s (completeTask s)
  | fail (s : SimulationState) : Step s (failTask s)
  | stop (s : SimulationState) : Step s (stopSim s)

/-- The conservation quantity: queued plus active tasks on one side,
generated minus processed minus failed on the other (over the integers). -/
def Conserved (s : SimulationState) : Prop :=
  (s.pending_fog_tasks.length + s.cloud_tasks.length + s.active_tasks.length : ℤ)
    = (s.tasks_generated : ℤ) - s.tasks_processed - s.tasks_failed

/-- Looks a task up by id, scanning the containers in order. -/
def findTask : List Task → Nat → Option Task
  | [], _ => none
  | t :: ts, i => if t.id = i then some t else findTask ts i

/-- The observable status of the task with the given id, if present. -/
def statusOf (s : SimulationState) (i : Nat) : Option Status :=
  (findTask (allTasks s) i).map Task.status

/-- Well-formedness: task ids are unique across all containers. -/
def WF (s : SimulationState) : Prop :=
  ((allTasks s).map Task.id).Nodup

/-- Container/status agreement: queued tasks are QUEUED, active tasks are
PROCESSING, finished tasks are COMPLETED or FAILED. -/
def StatusOK (s : SimulationState) : Prop :=
  (∀ t ∈ s.pending_fog_tasks, t.status = .QUEUED) ∧
  (∀ t ∈ s.cloud_tasks, t.status = .QUEUED) ∧
  (∀ t ∈ s.active_tasks, t.status = .PROCESSING) ∧
  (∀ t ∈ s.done_tasks, t.status = .COMPLETED ∨ t.status = .FAILED)

/-- The lifecycle transitions the spec allows: dispatch, success, failure. -/
def AllowedTransition (a b : Status) : Prop :=
  (a = .QUEUED ∧ b = .PROCESSING) ∨
  (a = .PROCESSING ∧ b = .COMPLETED) ∨
  (a = .PROCESSING ∧ b = .FAILED)

theorem findTask_some {l : List Task} {i : Nat} {t : Task}
    (h : findTask l i = some t) : t ∈ l ∧ t.id = i := by
  induction l with
  | nil => simp [findTask] at h
  | cons a as ih =>
    simp only [findTask] at h
    by_cases ha : a.id = i
    · rw [if_pos ha] at h
      obtain rfl := Option.some.inj h
      exact ⟨List.mem_cons_self _ _, ha⟩
    · rw [if_neg ha] at h
      obtain ⟨hmem, hid⟩ := ih h
      exact ⟨List.mem_cons_of_mem _ hmem, hid⟩

theorem findTask_none {l : List Task} {i : Nat} :
    findTask l i = none ↔ ∀ t ∈ l, t.id ≠ i := by
  induction l with
  | nil => simp [findTask]
  | cons a as ih =>
    simp only [findTask]
    by_cases ha : a.id = i
    · simp [ha]
    · simp [ha, ih]

theorem findTask_of_mem {l : List Task} {t : Task}
    (hnd : (l.map Task.id).Nodup) (ht : t ∈ l) :
    findTask l t.id = some t := by
  induction l with
  | nil => simp at ht
  | cons a as ih =>
    rw [List.map_cons, List.nodup_cons] at hnd
    obtain ⟨hhead, htail⟩ := hnd
    rcases List.mem_cons.mp ht with rfl | hmem
    · simp [findTask]
    · have hne : a.id ≠ t.id := by
        intro he
        exact hhead (he ▸ List.mem_map_of_mem Task.id hmem)
      simp only [findTask, if_neg hne]
      exact ih htail hmem

theorem findTask_perm {l l' : List Task} (hp : l.Perm l')
    (hnd : (l.map Task.id).Nodup) (i : Nat) :
    findTask l i = findTask l' i := by
  have hnd' : (l'.map Task.id).Nodup := ((hp.map Task.id).nodup_iff).mp hnd
  cases h : findTask l i with
  | some t =>
    obtain ⟨hmem, hid⟩ := findTask_some h
    subst hid
    exact (findTask_of_mem hnd' (hp.mem_iff.mp hmem)).symm
  | none =>
    refine (findTask_none.mpr ?_).symm
    intro t htmem
    exact findTask_none.mp h t (hp.mem_iff.mpr htmem)

/-- If the task pools of two states differ by replacing one task m by a
task m' with the same id (everything else identical up to reordering),
then any observable status either stays unchanged or goes from m.status
to m'.status at id m.id. -/
theorem statusOf_replace {s s' : SimulationState} {m m' : Task} {X : List Task}
    (hs : (allTasks s).Perm (m :: X)) (hs' : (allTasks s').Perm (m' :: X))
    (hid : m'.id = m.id) (hnd : WF s) {i : Nat} {a b : Status}
    (ha : statusOf s i = some a) (hb : statusOf s' i = some b) :
    (i = m.id ∧ a = m.status ∧ b = m'.status) ∨ b = a := by
  have hndX : ((m :: X).map Task.id).Nodup := ((hs.map Task.id).nodup_iff).mp hnd
  have hndX' : ((m' :: X).map Task.id).Nodup := by
    rw [List.map_cons, hid]
    rw [List.map_cons] at hndX
    exact hndX
  have hnds' : WF s' := ((hs'.map Task.id).nodup_iff).mpr hndX'
  unfold statusOf at ha hb
  rw [findTask_perm hs hnd] at ha
  rw [findTask_perm hs' hnds'] at hb
  by_cases him : m.id = i
  · left
    have hfa : findTask (m :: X) i = some m := by simp [findTask, him]
    have hfb : findTask (m' :: X) i = some m' := by
      simp [findTask, hid.trans him]
    rw [hfa] at ha
    rw [hfb] at hb
    exact ⟨him.symm, (Option.some.inj ha).symm, (Option.some.inj hb).symm⟩
  · right
    have hm' : ¬ m'.id = i := by rw [hid]; exact him
    rw [show findTask (m :: X) i = findTask X i by simp [findTask, him]] at ha
    rw [show findTask (m' :: X) i = findTask X i by simp [findTask, hm']] at hb
    rw [ha] at hb
    exact (Option.some.inj hb).symm

/-- Generating a task permutes the task pool to the new QUEUED task
consed onto the old pool. -/
theorem allTasks_generate (s : SimulationState) (t : Task) :
    (allTasks (generateTask s t)).Perm
      ({ t with status := Status.QUEUED } :: allTasks s) := by
  unfold generateTask allTasks
  cases hroute : routeTask { t with status := Status.QUEUED } with
  | fog =>
    simp only [hroute]
    have h1 := List.perm_append_singleton { t with status := Status.QUEUED }
      s.pending_fog_tasks
    refine (((h1.append_right _).append_right _).append_right _).trans ?_
    simp only [List.cons_append]
    exact List.Perm.refl _
  | cloud =>
    simp only [hroute]
    have h1 := List.perm_append_singleton { t with status := Status.QUEUED }
      s.cloud_tasks
    have h2 := List.Perm.append_left s.pending_fog_tasks h1
    have h3 : (s.pending_fog_tasks ++
        ({ t with status := Status.QUEUED } :: s.cloud_tasks)).Perm
        ({ t with status := Status.QUEUED } ::
          (s.pending_fog_tasks ++ s.cloud_tasks)) := List.perm_middle
    refine (((h2.trans h3).append_right _).append_right _).trans ?_
    simp only [List.cons_append]
    exact List.Perm.refl _

/-- Fog dispatch replaces the popped task m by its PROCESSING copy inside
the task pool, up to reordering. -/
theorem allTasks_dispatchFog {s : SimulationState} {m : Task} {rest : List Task}
    (h : popHighest s.pending_fog_tasks = some (m, rest)) :
    (allTasks s).Perm
      (m :: (rest ++ s.cloud_tasks ++ s.active_tasks ++ s.done_tasks)) ∧
    (allTasks (dispatchFog s)).Perm
      ({ m with status := Status.PROCESSING } ::
        (rest ++ s.cloud_tasks ++ s.active_tasks ++ s.done_tasks)) := by
  constructor
  · have h1 := popHighest_perm h
    unfold allTasks
    refine (((h1.append_right _).append_right _).append_right _).trans ?_
    simp only [List.cons_append]
    exact List.Perm.refl _
  · unfold dispatchFog allTasks
    simp only [h]
    have h2 := List.perm_append_singleton
      { m with status := Status.PROCESSING } s.active_tasks
    have h3 := (List.Perm.append_left (rest ++ s.cloud_tasks) h2).append_right
      s.done_tasks
    have h4 : ((rest ++ s.cloud_tasks) ++
        ({ m with status := Status.PROCESSING } :: s.active_tasks)).Perm
        ({ m with status := Status.PROCESSING } ::
          ((rest ++ s.cloud_tasks) ++ s.active_tasks)) := List.perm_middle
    refine h3.trans ((h4.append_right _).trans ?_)
    simp only [List.cons_append]
    exact List.Perm.refl _

/-- Cloud dispatch replaces the front task c by its PROCESSING copy inside
the task pool, up to reordering. -/
theorem allTasks_dispatchCloud {s : SimulationState} {c : Task} {rest : List Task}
    (h : popFront s.cloud_tasks = some (c, rest)) :
    (allTasks s).Perm
      (c :: (s.pending_fog_tasks ++ rest ++ s.active_tasks ++ s.done_tasks)) ∧
    (allTasks (dispatchCloud s)).Perm
      ({ c with status := Status.PROCESSING } ::
        (s.pending_fog_tasks ++ rest ++ s.active_tasks ++ s.done_tasks)) := by
  have hq := popFront_eq_some h
  constructor
  · unfold allTasks
    rw [hq]
    have h1 : (s.pending_fog_tasks ++ (c :: rest)).Perm
        (c :: (s.pending_fog_tasks ++ rest)) := List.perm_middle
    refine ((h1.append_right _).append_right _).trans ?_
    simp only [List.cons_append]
    exact List.Perm.refl _
  · unfold dispatchCloud allTasks
    simp only [h]
    have h2 := List.perm_append_singleton
      { c with status := Status.PROCESSING } s.active_tasks
    have h3 := (List.Perm.append_left (s.pending_fog_tasks ++ rest) h2).append_right
      s.done_tasks
    have h4 : ((s.pending_fog_tasks ++ rest) ++
        ({ c with status := Status.PROCESSING } :: s.active_tasks)).Perm
        ({ c with status := Status.PROCESSING } ::
          ((s.pending_fog_tasks ++ rest) ++ s.active_tasks)) := List.perm_middle
    refine h3.trans ((h4.append_right _).trans ?_)
    simp only [List.cons_append]
    exact List.Perm.refl _

/-- Completion replaces the finished active task a by its COMPLETED copy
inside the task pool, up to reordering. -/
theorem allTasks_completeTask {s : SimulationState} {a : Task} {rest : List Task}
    (h : s.active_tasks = a :: rest) :
    (allTasks s).Perm
      (a :: (s.pending_fog_tasks ++ s.cloud_tasks ++ rest ++ s.done_tasks)) ∧
    (allTasks (completeTask s)).Perm
      ({ a with status := Status.COMPLETED } ::
        (s.pending_fog_tasks ++ s.cloud_tasks ++ rest ++ s.done_tasks)) := by
  constructor
  · unfold allTasks
    rw [h]
    have h1 : ((s.pending_fog_tasks ++ s.cloud_tasks) ++ (a :: rest)).Perm
        (a :: ((s.pending_fog_tasks ++ s.cloud_tasks) ++ rest)) := List.perm_middle
    refine (h1.append_right _).trans ?_
    simp only [List.cons_append]
    exact List.Perm.refl _
  · unfold completeTask allTasks
    rw [h]
    have h2 := List.perm_append_singleton
      { a with status := Status.COMPLETED } s.done_tasks
    have h3 := List.Perm.append_left
      (s.pending_fog_tasks ++ s.cloud_tasks ++ rest) h2
    have h4 : ((s.pending_fog_tasks ++ s.cloud_tasks ++ rest) ++
        ({ a with status := Status.COMPLETED } :: s.done_tasks)).Perm
        ({ a with status := Status.COMPLETED } ::
          ((s.pending_fog_tasks ++ s.cloud_tasks ++ rest) ++ s.done_tasks)) :=
      List.perm_middle
    refine h3.trans (h4.trans ?_)
    exact List.Perm.refl _

/-- Failure replaces the finished active task a by its FAILED copy inside
the task pool, up to reordering. -/
theorem allTasks_failTask {s : SimulationState} {a : Task} {rest : List Task}
    (h : s.active_tasks = a :: rest) :
    (allTasks s).Perm
      (a :: (s.pending_fog_tasks ++ s.cloud_tasks ++ rest ++ s.done_tasks)) ∧
    (allTasks (failTask s)).Perm
      ({ a with status := Status.FAILED } ::
        (s.pending_fog_tasks ++ s.cloud_tasks ++ rest ++ s.done_tasks)) := by
  constructor
  · unfold allTasks
    rw [h]
    have h1 : ((s.pending_fog_tasks ++ s.cloud_tasks) ++ (a :: rest)).Perm
        (a :: ((s.pending_fog_tasks ++ s.cloud_tasks) ++ rest)) := List.perm_middle
    refine (h1.append_right _).trans ?_
    simp only [List.cons_append]
    exact List.Perm.refl _
  · unfold failTask allTasks
    rw [h]
    have h2 := List.perm_append_singleton
      { a with status := Status.FAILED } s.done_tasks
    have h3 := List.Perm.append_left
      (s.pending_fog_tasks ++ s.cloud_tasks ++ rest) h2
    have h4 : ((s.pending_fog_tasks ++ s.cloud_tasks ++ rest) ++
        ({ a with status := Status.FAILED } :: s.done_tasks)).Perm
        ({ a with status := Status.FAILED } ::
          ((s.pending_fog_tasks ++ s.cloud_tasks ++ rest) ++ s.done_tasks)) :=
      List.perm_middle
    refine h3.trans (h4.trans ?_)
    exact List.Perm.refl _

/-- Generating a fresh task never changes the status of an already
observable task. -/
theorem statusOf_gen {s : SimulationState} {t : Task}
    (hfresh : ∀ u ∈ allTasks s, u.id ≠ t.id) (hnd : WF s) {i : Nat}
    {a b : Status} (ha : statusOf s i = some a)
    (hb : statusOf (generateTask s t) i = some b) : b = a := by
  have hp := allTasks_generate s t
  have hndc : (({ t with status := Status.QUEUED } :: allTasks s).map
      Task.id).Nodup := by
    rw [List.map_cons, List.nodup_cons]
    refine ⟨?_, hnd⟩
    intro hmem
    obtain ⟨u, hu, hui⟩ := List.mem_map.mp hmem
    exact hfresh u hu hui
  have hnds' : WF (generateTask s t) := ((hp.map Task.id).nodup_iff).mpr hndc
  unfold statusOf at ha hb
  rw [findTask_perm hp hnds'] at hb
  have hine : ¬ ({ t with status := Status.QUEUED } : Task).id = i := by
    cases hfa : findTask (allTasks s) i with
    | none => rw [hfa] at ha; simp at ha
    | some u =>
      obtain ⟨hu, hui⟩ := findTask_some hfa
      intro he
      exact hfresh u hu (hui.trans he.symm)
  rw [show findTask ({ t with status := Status.QUEUED } :: allTasks s) i
      = findTask (allTasks s) i by simp [findTask, hine]] at hb
  rw [ha] at hb
  exact (Option.some.inj hb).symm

/-! ### Configuration -/

/-- The configuration bundle of the simulation (the fields of config.json
documented in CLEANUP_CHECKLIST.md that carry ranges or rates). -/
structure SimConfig where
  duration : ℚ
  failure_probability : ℚ
  rate_min : ℚ
  rate_max : ℚ
  complexity_min : ℚ
  complexity_max : ℚ
  base_latency : ℚ
  cloud_latency : ℚ
deriving DecidableEq, Repr

/-- The default configuration values recorded in CLEANUP_CHECKLIST.md:
duration 100, failure probability 0.1, task rate range [0.1, 0.3],
complexity range [50, 2000], base latency 0.01, cloud latency 5.0. -/
def defaultConfig : SimConfig :=
  { duration := 100
    failure_probability := 1/10
    rate_min := 1/10
    rate_max := 3/10
    complexity_min := 50
    complexity_max := 2000
    base_latency := 1/100
    cloud_latency := 5 }

/-- A configuration is valid when every configured range has min ≤ max and
no rate is negative. -/
def validConfig (c : SimConfig) : Prop :=
  0 ≤ c.rate_min ∧ c.rate_min ≤ c.rate_max ∧
  c.complexity_min ≤ c.complexity_max ∧
  0 ≤ c.failure_probability

instance (c : SimConfig) : Decidable (validConfig c) := by
  unfold validConfig
  infer_instance

/-- Auto-correction of the task-rate range: an invalid range falls back to
its default values. -/
def fixRate (c : SimConfig) : SimConfig :=
  if 0 ≤ c.rate_min ∧ c.rate_min ≤ c.rate_max then c
  else { c with rate_min := defaultConfig.rate_min
                rate_max := defaultConfig.rate_max }

/-- Auto-correction of the complexity range: an invalid range falls back
to its default values. -/
def fixComplexity (c : SimConfig) : SimConfig :=
  if c.complexity_min ≤ c.complexity_max then c
  else { c with complexity_min := defaultConfig.complexity_min
                complexity_max := defaultConfig.complexity_max }

/-- Auto-correction of the failure probability: a negative value falls
back to its default. -/
def fixFailure (c : SimConfig) : SimConfig :=
  if 0 ≤ c.failure_probability then c
  else { c with failure_probability := defaultConfig.failure_probability }

/-- Modelled from the spec: the configuration loading of backend/app.py
(missing from the source tree).  PROJECT_STATUS.md (Configuration Issues:
"Auto-validation on config load", "Config auto-corrects invalid values",
"Default values for all fields") and CLEANUP_CHECKLIST.md ("Auto-fix
invalid config values on load") document that an invalid value is replaced
by its default when the configuration is loaded, rather than being
rejected. -/
def normalizeConfig (c : SimConfig) : SimConfig :=
  fixFailure (fixComplexity (fixRate c))

/-- Outcome of a Start request. -/
inductive StartResult where
  | started (cfg : SimConfig)
  | rejected
deriving DecidableEq, Repr

/-- Modelled from the spec: the Start operation of backend/app.py (missing
from the source tree).  Per the repository documents quoted on
normalizeConfig, Start loads the auto-corrected configuration and begins
the run; it has no rejection path for invalid ranges. -/
def startSim (c : SimConfig) : StartResult :=
  .started (normalizeConfig c)

/-! ### Device priority lookup -/

/-- Translated from frontend/src/components/IoTDevices.jsx: the expression
devicePriorities[deviceId] || MODERATE used for demo devices and for the
displayed current priority.  A missing entry — and, per JavaScript
falsiness, an empty string — falls back to MODERATE. -/
def devicePriorityLabel (table : List (String × String)) (d : String) : String :=
  match table.lookup d with
  | some p => if p = "" then "MODERATE" else p
  | none => "MODERATE"

/-- Modelled from the spec: the backend reads the device-priority table at
task-creation time and the new task inherits the device's priority label
(DevicePriorityTable in spec section 3; backend/app.py is missing from the
source tree). -/
def priorityOfLabel (l : String) : Priority :=
  if l = "HIGH" then .HIGH else if l = "LOW" then .LOW else .MODERATE

/-- Modelled from the spec: creation of a task originating from device d,
inheriting the device's priority from the table. -/
def mkDeviceTask (table : List (String × String)) (d : String)
    (i : Nat) (cx arr : ℚ) : Task :=
  { id := i
    priority := priorityOfLabel (devicePriorityLabel table d)
    complexity := cx
    arrival := arr
    status := .QUEUED }

/-! ### Firebase-prototype client offloading -/

/-- Packet complexity labels of the prototype client
(client/src/services/api.ts): low or high. -/
inductive PacketComplexity where
  | low
  | high
deriving DecidableEq, Repr

/-- A data packet of the prototype client: identifier, size (0 to 1000)
and complexity label. -/
structure DataPacket where
  id : String
  size : Nat
  complexity : PacketComplexity
deriving DecidableEq, Repr

/-- Translated from client/src/App.tsx (handleGeneratePacket):
shouldUseFog is complexity low and size below 500. -/
def shouldUseFog (p : DataPacket) : Bool :=
  p.complexity == .low && p.size < 500

/-- Translated from client/src/App.tsx (handleGeneratePacket): the packet
goes to the fog-processing endpoint when shouldUseFog holds and to the
cloud-processing endpoint otherwise. -/
def packetDestination (p : DataPacket) : Node :=
  if shouldUseFog p then .fog else .cloud

/-! ### Supporting lemmas for configuration normalization -/

theorem fixRate_ok (c : SimConfig) :
    0 ≤ (fixRate c).rate_min ∧ (fixRate c).rate_min ≤ (fixRate c).rate_max := by
  unfold fixRate
  split_ifs with h
  · exact h
  · constructor <;> norm_num [defaultConfig]

theorem fixComplexity_rate (c : SimConfig) :
    (fixComplexity c).rate_min = c.rate_min ∧
    (fixComplexity c).rate_max = c.rate_max := by
  unfold fixComplexity
  split_ifs <;> exact ⟨rfl, rfl⟩

theorem fixComplexity_ok (c : SimConfig) :
    (fixComplexity c).complexity_min ≤ (fixComplexity c).complexity_max := by
  unfold fixComplexity
  split_ifs with h
  · exact h
  · norm_num [defaultConfig]

theorem fixFailure_rate (c : SimConfig) :
    (fixFailure c).rate_min = c.rate_min ∧
    (fixFailure c).rate_max = c.rate_max := by
  unfold fixFailure
  split_ifs <;> exact ⟨rfl, rfl⟩

theorem fixFailure_complexity (c : SimConfig) :
    (fixFailure c).complexity_min = c.complexity_min ∧
    (fixFailure c).complexity_max = c.complexity_max := by
  unfold fixFailure
  split_ifs <;> exact ⟨rfl, rfl⟩

theorem fixFailure_ok (c : SimConfig) :
    0 ≤ (fixFailure c).failure_probability := by
  unfold fixFailure
  split_ifs with h
  · exact h
  · norm_num [defaultConfig]

theorem normalizeConfig_valid (c : SimConfig) :
    validConfig (normalizeConfig c) := by
  unfold normalizeConfig validConfig
  obtain ⟨hr1, hr2⟩ := fixFailure_rate (fixComplexity (fixRate c))
  obtain ⟨hc1, hc2⟩ := fixFailure_complexity (fixComplexity (fixRate c))
  obtain ⟨hr1c, hr2c⟩ := fixComplexity_rate (fixRate c)
  refine ⟨?_, ?_, ?_, fixFailure_ok _⟩
  · rw [hr1, hr1c]
    exact (fixRate_ok c).1
  · rw [hr1, hr2, hr1c, hr2c]
    exact (fixRate_ok c).2
  · rw [hc1, hc2]
    exact fixComplexity_ok _

/-- The fog/cloud latency intervals are disjoint with fog strictly below. -/
theorem fogRange_lt_cloudRange (f c : ℚ) (hf : inLatencyRange .fog f)
    (hc : inLatencyRange .cloud c) : f < c := by
  simp only [inLatencyRange] at hf hc
  calc f ≤ fogLatencyMax := hf.2
    _ < cloudLatencyMin := by norm_num [fogLatencyMax, cloudLatencyMin]
    _ ≤ c := hc.1

/-! ## Claim theorems -/

/-- C1: for tasks A, B in the fog priority queue with equal priority
weight, if A arrives earlier, or arrivals tie and A has lower complexity,
or those tie too and A has the lower id, then pop_highest never returns B
while A is still queued — so A is popped no later than B, with id
ascending as the final deterministic tie-break. -/
theorem claim_C1_fog_pop_order (q : List Task) (A B : Task)
    (hA : A ∈ q) (hB : B ∈ q)
    (hw : A.priority.weight = B.priority.weight)
    (htie : A.arrival < B.arrival ∨
      (A.arrival = B.arrival ∧ A.complexity < B.complexity) ∨
      (A.arrival = B.arrival ∧ A.complexity = B.complexity ∧ A.id < B.id))
    (m : Task) (rest : List Task) (hpop : popHighest q = some (m, rest)) :
    m ≠ B := by
  have hlt : keyLt A B := by
    rw [keyLt_iff]
    refine Or.inr ⟨by rw [hw], ?_⟩
    rcases htie with h | ⟨h1, h2⟩ | ⟨h1, h2, h3⟩
    · exact Or.inl h
    · exact Or.inr ⟨h1, Or.inl h2⟩
    · exact Or.inr ⟨h1, Or.inr ⟨h2, h3⟩⟩
  intro he
  subst he
  have hmin := popHighest_min hpop A hA
  exact absurd hmin (not_le.mpr hlt)

/-- Witness for C1: the spec's concrete scenario — two HIGH tasks with
arrival 2.0, complexities 300 (id 7) and 150 (id 9): the id-7 task is not
the first pop. -/
theorem claim_C1_fog_pop_order_witness :
    popHighest [⟨7, .HIGH, 300, 2, .QUEUED⟩, ⟨9, .HIGH, 150, 2, .QUEUED⟩]
      = some (⟨9, .HIGH, 150, 2, .QUEUED⟩, [⟨7, .HIGH, 300, 2, .QUEUED⟩]) ∧
    (⟨9, .HIGH, 150, 2, .QUEUED⟩ : Task) ≠ ⟨7, .HIGH, 300, 2, .QUEUED⟩ := by
  constructor
  · decide
  · exact claim_C1_fog_pop_order
      [⟨7, .HIGH, 300, 2, .QUEUED⟩, ⟨9, .HIGH, 150, 2, .QUEUED⟩]
      ⟨9, .HIGH, 150, 2, .QUEUED⟩ ⟨7, .HIGH, 300, 2, .QUEUED⟩
      (by decide) (by decide) (by decide)
      (Or.inr (Or.inl (by constructor <;> decide)))
      ⟨9, .HIGH, 150, 2, .QUEUED⟩ [⟨7, .HIGH, 300, 2, .QUEUED⟩]
      (by decide)

/-- C2: routing is a total deterministic function of the priority alone —
HIGH goes to fog, MODERATE and LOW go to cloud, every task lands in
exactly one of the two, and tasks with equal priority route alike. -/
theorem claim_C2_routing (t : Task) :
    (t.priority = .HIGH → routeTask t = .fog) ∧
    ((t.priority = .MODERATE ∨ t.priority = .LOW) → routeTask t = .cloud) ∧
    (routeTask t = .fog ∨ routeTask t = .cloud) ∧
    (∀ u : Task, u.priority = t.priority → routeTask u = routeTask t) := by
  refine ⟨?_, ?_, ?_, ?_⟩
  · intro h
    simp [routeTask, h]
  · rintro (h | h) <;> simp [routeTask, h]
  · cases hp : t.priority <;> simp [routeTask, hp]
  · intro u hu
    unfold routeTask
    rw [hu]

/-- Witness for C2: a HIGH task routes to fog and a LOW task to cloud. -/
theorem claim_C2_routing_witness :
    routeTask ⟨1, .HIGH, 100, 0, .QUEUED⟩ = .fog ∧
    routeTask ⟨2, .LOW, 100, 0, .QUEUED⟩ = .cloud :=
  ⟨(claim_C2_routing _).1 rfl, (claim_C2_routing _).2.1 (Or.inr rfl)⟩

/-- C3: under the default constants the fog latency range lies strictly
below the cloud latency range, every fog sample is strictly below every
cloud sample, and the 95th-percentile of any fog sample set is strictly
below the 5th-percentile of any cloud sample set. -/
theorem claim_C3_latency_separation :
    fogLatencyMax < cloudLatencyMin ∧
    (∀ f c : ℚ, inLatencyRange .fog f → inLatencyRange .cloud c → f < c) ∧
    (∀ Lf Lc : List ℚ, Lf ≠ [] → Lc ≠ [] →
      (∀ x ∈ Lf, inLatencyRange .fog x) →
      (∀ x ∈ Lc, inLatencyRange .cloud x) →
      percentile 95 Lf < percentile 5 Lc) := by
  refine ⟨by norm_num [fogLatencyMax, cloudLatencyMin],
    fogRange_lt_cloudRange, ?_⟩
  intro Lf Lc hLf hLc hf hc
  exact fogRange_lt_cloudRange _ _
    (hf _ (percentile_mem hLf (by norm_num)))
    (hc _ (percentile_mem hLc (by norm_num)))

/-- Witness for C3: the concrete samples 40 (fog) and 130 (cloud). -/
theorem claim_C3_latency_separation_witness :
    (40 : ℚ) < 130 ∧ percentile 95 [(40 : ℚ)] < percentile 5 [(130 : ℚ)] := by
  constructor
  · exact claim_C3_latency_separation.2.1 40 130
      (by norm_num [inLatencyRange, fogLatencyMin, fogLatencyMax])
      (by norm_num [inLatencyRange, cloudLatencyMin, cloudLatencyMax])
  · refine claim_C3_latency_separation.2.2 [40] [130]
      (by simp) (by simp) ?_ ?_
    · intro x hx
      rw [List.mem_singleton] at hx
      subst hx
      norm_num [inLatencyRange, fogLatencyMin, fogLatencyMax]
    · intro x hx
      rw [List.mem_singleton] at hx
      subst hx
      norm_num [inLatencyRange, cloudLatencyMin, cloudLatencyMax]

/-- C4: the cloud queue is strictly FIFO — pushing A, B, C in that order
makes the pops return exactly A, B, C whatever their fields are, and in
general draining after a push appends that task at the end. -/
theorem claim_C4_cloud_fifo :
    (∀ A B C : Task,
      drainCloud (pushCloud (pushCloud (pushCloud [] A) B) C) = [A, B, C]) ∧
    (∀ (q : List Task) (t : Task),
      drainCloud (pushCloud q t) = drainCloud q ++ [t]) := by
  constructor
  · intro A B C
    simp [pushCloud, drainCloud_eq]
  · intro q t
    simp [pushCloud, drainCloud_eq]

/-- C5: the conservation law — queued fog tasks plus queued cloud tasks
plus active tasks always equals generated minus processed minus failed; it
holds initially and every core operation (generate, dispatch, complete,
fail, stop) preserves it. -/
theorem claim_C5_conservation :
    Conserved initState ∧
    ∀ s s' : SimulationState, Step s s' → Conserved s → Conserved s' := by
  constructor
  · simp [Conserved, initState]
  · intro s s' hstep hc
    unfold Conserved at hc ⊢
    cases hstep with
    | gen t hfresh =>
      unfold generateTask
      cases hroute : routeTask { t with status := Status.QUEUED } <;>
        simp only [hroute, List.length_append, List.length_singleton] <;>
        push_cast <;> push_cast at hc <;> omega
    | dfog =>
      unfold dispatchFog
      cases hpop : popHighest s.pending_fog_tasks with
      | none => exact hc
      | some p =>
        obtain ⟨m, rest⟩ := p
        have hlen : s.pending_fog_tasks.length = rest.length + 1 := by
          have h := (popHighest_perm hpop).length_eq
          simpa using h
        simp only [hpop, List.length_append, List.length_singleton]
        push_cast
        push_cast at hc
        omega
    | dcloud =>
      unfold dispatchCloud
      cases hpop : popFront s.cloud_tasks with
      | none => exact hc
      | some p =>
        obtain ⟨c, rest⟩ := p
        have hlen : s.cloud_tasks.length = rest.length + 1 := by
          rw [popFront_eq_some hpop]
          simp
        simp only [hpop, List.length_append, List.length_singleton]
        push_cast
        push_cast at hc
        omega
    | comp =>
      unfold completeTask
      cases hact : s.active_tasks with
      | nil => exact hc
      | cons a rest =>
        rw [hact] at hc
        simp only [List.length_cons] at hc
        simp only []
        push_cast
        push_cast at hc
        omega
    | fail =>
      unfold failTask
      cases hact : s.active_tasks with
      | nil => exact hc
      | cons a rest =>
        rw [hact] at hc
        simp only [List.length_cons] at hc
        simp only []
        push_cast
        push_cast at hc
        omega
    | stop => exact hc

/-- Witness for C5: generating one task in the initial state preserves the
conservation law. -/
theorem claim_C5_conservation_witness :
    Conserved (generateTask initState ⟨1, .HIGH, 100, 0, .QUEUED⟩) :=
  claim_C5_conservation.2 initState _
    (Step.gen initState ⟨1, .HIGH, 100, 0, .QUEUED⟩
      (by intro u hu; simp [allTasks, initState] at hu))
    claim_C5_conservation.1

/-- C7: Stop is idempotent — a second Stop leaves the state exactly as the
first one did, the state is stopped, and no queue or metric changes
between the two calls. -/
theorem claim_C7_stop_idempotent (s : SimulationState) :
    stopSim (stopSim s) = stopSim s ∧
    (stopSim s).running = false ∧
    (stopSim (stopSim s)).tasks_generated = (stopSim s).tasks_generated ∧
    (stopSim (stopSim s)).tasks_processed = (stopSim s).tasks_processed ∧
    (stopSim (stopSim s)).tasks_failed = (stopSim s).tasks_failed ∧
    (stopSim (stopSim s)).pending_fog_tasks = (stopSim s).pending_fog_tasks ∧
    (stopSim (stopSim s)).cloud_tasks = (stopSim s).cloud_tasks ∧
    (stopSim (stopSim s)).active_tasks = (stopSim s).active_tasks :=
  ⟨rfl, rfl, rfl, rfl, rfl, rfl, rfl, rfl⟩

/-- C8: the task lifecycle is forward-only — under unique ids and
container/status agreement, any step changes an observable status only
along QUEUED to PROCESSING, PROCESSING to COMPLETED, or PROCESSING to
FAILED (so COMPLETED and FAILED are terminal), and a freshly generated
task is observable with status QUEUED. -/
theorem claim_C8_lifecycle (s s' : SimulationState) (hstep : Step s s')
    (hwf : WF s) (hok : StatusOK s) :
    (∀ i a b, statusOf s i = some a → statusOf s' i = some b →
      a = b ∨ AllowedTransition a b) ∧
    (∀ t : Task, (∀ u ∈ allTasks s, u.id ≠ t.id) →
      statusOf (generateTask s t) t.id = some .QUEUED) := by
  constructor
  · intro i a b ha hb
    cases hstep with
    | gen t hfresh =>
      left
      exact (statusOf_gen hfresh hwf ha hb).symm
    | dfog =>
      cases hpop : popHighest s.pending_fog_tasks with
      | none =>
        have hfix : dispatchFog s = s := by
          unfold dispatchFog
          rw [hpop]
        rw [hfix, ha] at hb
        exact Or.inl (Option.some.inj hb)
      | some p =>
        obtain ⟨m, rest⟩ := p
        obtain ⟨h1, h2⟩ := allTasks_dispatchFog hpop
        rcases statusOf_replace h1 h2 rfl hwf ha hb with ⟨hi, hAa, hBb⟩ | heq
        · right
          left
          refine ⟨hAa.trans (hok.1 m (popHighest_mem hpop)), ?_⟩
          rw [hBb]
        · exact Or.inl heq.symm
    | dcloud =>
      cases hpop : popFront s.cloud_tasks with
      | none =>
        have hfix : dispatchCloud s = s := by
          unfold dispatchCloud
          rw [hpop]
        rw [hfix, ha] at hb
        exact Or.inl (Option.some.inj hb)
      | some p =>
        obtain ⟨c, rest⟩ := p
        obtain ⟨h1, h2⟩ := allTasks_dispatchCloud hpop
        have hcmem : c ∈ s.cloud_tasks := by
          rw [popFront_eq_some hpop]
          exact List.mem_cons_self _ _
        rcases statusOf_replace h1 h2 rfl hwf ha hb with ⟨hi, hAa, hBb⟩ | heq
        · right
          left
          refine ⟨hAa.trans (hok.2.1 c hcmem), ?_⟩
          rw [hBb]
        · exact Or.inl heq.symm
    | comp =>
      cases hact : s.active_tasks with
      | nil =>
        have hfix : completeTask s = s := by
          unfold completeTask
          rw [hact]
        rw [hfix, ha] at hb
        exact Or.inl (Option.some.inj hb)
      | cons a0 rest =>
        obtain ⟨h1, h2⟩ := allTasks_completeTask hact
        have hamem : a0 ∈ s.active_tasks := by
          rw [hact]
          exact List.mem_cons_self _ _
        rcases statusOf_replace h1 h2 rfl hwf ha hb with ⟨hi, hAa, hBb⟩ | heq
        · right
          right
          left
          refine ⟨hAa.trans (hok.2.2.1 a0 hamem), ?_⟩
          rw [hBb]
        · exact Or.inl heq.symm
    | fail =>
      cases hact : s.active_tasks with
      | nil =>
        have hfix : failTask s = s := by
          unfold failTask
          rw [hact]
        rw [hfix, ha] at hb
        exact Or.inl (Option.some.inj hb)
      | cons a0 rest =>
        obtain ⟨h1, h2⟩ := allTasks_failTask hact
        have hamem : a0 ∈ s.active_tasks := by
          rw [hact]
          exact List.mem_cons_self _ _
        rcases statusOf_replace h1 h2 rfl hwf ha hb with ⟨hi, hAa, hBb⟩ | heq
        · right
          right
          right
          refine ⟨hAa.trans (hok.2.2.1 a0 hamem), ?_⟩
          rw [hBb]
        · exact Or.inl heq.symm
    | stop =>
      have hfix : statusOf (stopSim s) i = statusOf s i := rfl
      rw [hfix, ha] at hb
      exact Or.inl (Option.some.inj hb)
  · intro t hfresh
    have hp := allTasks_generate s t
    have hndc : (({ t with status := Status.QUEUED } :: allTasks s).map
        Task.id).Nodup := by
      rw [List.map_cons, List.nodup_cons]
      refine ⟨?_, hwf⟩
      intro hmem
      obtain ⟨u, hu, hui⟩ := List.mem_map.mp hmem
      exact hfresh u hu hui
    have hnds' : WF (generateTask s t) := ((hp.map Task.id).nodup_iff).mpr hndc
    unfold statusOf
    rw [findTask_perm hp hnds']
    simp [findTask]

/-- Witness for C8: dispatching the single HIGH task generated into the
initial state takes its observable status from QUEUED to PROCESSING, an
allowed transition. -/
theorem claim_C8_lifecycle_witness :
    (Status.QUEUED = Status.PROCESSING ∨
      AllowedTransition Status.QUEUED Status.PROCESSING) ∧
    statusOf
      (generateTask (generateTask initState ⟨1, .HIGH, 100, 0, .QUEUED⟩)
        ⟨2, .LOW, 80, 1, .QUEUED⟩) 2 = some .QUEUED := by
  constructor
  · exact (claim_C8_lifecycle
      (generateTask initState ⟨1, .HIGH, 100, 0, .QUEUED⟩)
      (dispatchFog (generateTask initState ⟨1, .HIGH, 100, 0, .QUEUED⟩))
      (Step.dfog _) (by unfold WF; decide) (by unfold StatusOK; decide)).1
      1 .QUEUED .PROCESSING (by decide) (by decide)
  · exact (claim_C8_lifecycle
      (generateTask initState ⟨1, .HIGH, 100, 0, .QUEUED⟩)
      (dispatchFog (generateTask initState ⟨1, .HIGH, 100, 0, .QUEUED⟩))
      (Step.dfog _) (by unfold WF; decide) (by unfold StatusOK; decide)).2
      ⟨2, .LOW, 80, 1, .QUEUED⟩ (by decide)

/-- C6 counterexample: a configuration whose task-rate range has
min > max is not rejected by Start — Start proceeds with the
auto-corrected (default) values, contradicting the claim that Start is
rejected synchronously. -/
theorem claim_C6_counterexample :
    ¬ validConfig { defaultConfig with rate_min := 3/10, rate_max := 1/10 } ∧
    startSim { defaultConfig with rate_min := 3/10, rate_max := 1/10 }
      ≠ .rejected ∧
    startSim { defaultConfig with rate_min := 3/10, rate_max := 1/10 }
      = .started defaultConfig := by
  refine ⟨?_, ?_, ?_⟩
  · intro h
    have h2 := h.2.1
    norm_num [defaultConfig] at h2
  · intro h
    simp [startSim] at h
  · show StartResult.started
      (normalizeConfig { defaultConfig with rate_min := 3/10, rate_max := 1/10 })
      = .started defaultConfig
    norm_num [normalizeConfig, fixRate, fixComplexity, fixFailure, defaultConfig]

/-- C6 amended: Start never rejects a configuration — invalid ranges and
negative rates are auto-corrected to their default values when the
configuration is loaded, and the run proceeds with the corrected, valid
configuration. -/
theorem claim_C6_start_autocorrects (c : SimConfig) :
    startSim c ≠ .rejected ∧
    startSim c = .started (normalizeConfig c) ∧
    validConfig (normalizeConfig c) := by
  refine ⟨?_, rfl, normalizeConfig_valid c⟩
  intro h
  simp [startSim] at h

/-- C9: a device id absent from the device-priority table looks up as
MODERATE, and a task generated for such a device inherits priority
MODERATE. -/
theorem claim_C9_unknown_device (table : List (String × String)) (d : String)
    (h : table.lookup d = none) (i : Nat) (cx arr : ℚ) :
    devicePriorityLabel table d = "MODERATE" ∧
    (mkDeviceTask table d i cx arr).priority = .MODERATE := by
  have hl : devicePriorityLabel table d = "MODERATE" := by
    unfold devicePriorityLabel
    rw [h]
  refine ⟨hl, ?_⟩
  unfold mkDeviceTask
  rw [hl]
  rfl

/-- Witness for C9: device_2 is not in a table that only maps device_1,
and its generated task has priority MODERATE. -/
theorem claim_C9_unknown_device_witness :
    [("device_1", "HIGH")].lookup "device_2" = none ∧
    devicePriorityLabel [("device_1", "HIGH")] "device_2" = "MODERATE" ∧
    (mkDeviceTask [("device_1", "HIGH")] "device_2" 5 100 0).priority
      = .MODERATE := by
  refine ⟨by decide, ?_, ?_⟩
  · exact (claim_C9_unknown_device [("device_1", "HIGH")] "device_2"
      (by decide) 5 100 0).1
  · exact (claim_C9_unknown_device [("device_1", "HIGH")] "device_2"
      (by decide) 5 100 0).2

/-- C10: the Firebase-prototype client sends a packet to the
fog-processing endpoint exactly when its complexity is low and its size is
below 500, and to the cloud-processing endpoint otherwise. -/
theorem claim_C10_prototype_offloading (p : DataPacket) :
    (packetDestination p = .fog ↔
      p.complexity = .low ∧ p.size < 500) ∧
    (packetDestination p = .cloud ↔
      ¬ (p.complexity = .low ∧ p.size < 500)) := by
  unfold packetDestination shouldUseFog
  by_cases h1 : p.complexity = .low <;> by_cases h2 : p.size < 500 <;>
    simp [h1, h2]

end FogSim
